import Mathlib

/-!
Verification of `src/dpo_loss.py`: the Direct Preference Optimization (DPO)
loss function. The function operates elementwise on four 1-D PyTorch tensors
of log-probabilities and a scalar temperature `beta`, returning per-example
losses and two reward diagnostics.

We embed 1-D tensors as `List ℝ` and elementwise arithmetic with PyTorch's
1-D broadcasting rule: two lengths are compatible when they are equal or one
of them is 1 (a length-1 tensor is stretched to the other length); any other
mismatch is a shape error, modelled as `none`.
-/

namespace DPO

/-- A 1-D tensor: an ordered sequence of real numbers. -/
abbrev Tensor := List ℝ

/-- Elementwise binary operation with PyTorch 1-D broadcasting:
equal lengths combine index-wise; a length-1 operand is stretched to the
other operand's length; any other length mismatch is a shape error. -/
def broadcast2 (f : ℝ → ℝ → ℝ) (a b : Tensor) : Option Tensor :=
  if a.length = b.length then
    some (List.zipWith f a b)
  else if a.length = 1 then
    some (b.map (fun y => f a.headI y))
  else if b.length = 1 then
    some (a.map (fun x => f x b.headI))
  else
    none

/-- Elementwise tensor subtraction (torch `-` on two tensors). -/
def tsub (a b : Tensor) : Option Tensor :=
  broadcast2 (fun x y => x - y) a b

/-- Two 1-D lengths are broadcast-compatible when they are equal or one of
them is 1 (the cases in which `broadcast2` succeeds). -/
def bcompat (n m : ℕ) : Prop :=
  n = m ∨ n = 1 ∨ m = 1

/-- Length of the result of a broadcast-compatible elementwise operation. -/
def blen (n m : ℕ) : ℕ :=
  if n = m then n else if n = 1 then m else n

/-- Multiplication of a tensor by a scalar (torch `beta * t`). -/
def smul (c : ℝ) (a : Tensor) : Tensor :=
  a.map (fun x => c * x)

/-- Elementwise negation (torch unary `-` on a tensor). -/
def tneg (a : Tensor) : Tensor :=
  a.map (fun x => -x)

/-- `tensor.detach()`: numerically the identity; it only severs the
autodiff graph, which the real-valued embedding does not model. -/
def detach (a : Tensor) : Tensor := a

/-- The logistic sigmoid `σ(x) = 1 / (1 + exp (-x))`. -/
noncomputable def sigmoid (x : ℝ) : ℝ :=
  1 / (1 + Real.exp (-x))

/-- `F.logsigmoid`, computed via the numerically stable softplus identity
`log σ(x) = -softplus (-x) = -(max (-x) 0 + log (1 + exp (-|x|)))`:
the argument of `exp` is always ≤ 0, so no intermediate overflows. -/
noncomputable def logsigmoid (x : ℝ) : ℝ :=
  -(max (-x) 0 + Real.log (1 + Real.exp (-|x|)))

/-- `dpo_loss` from `src/dpo_loss.py`: elementwise over the four input
tensors (with broadcasting), returns `(losses, chosen_rewards,
rejected_rewards)`, or `none` on a shape error. -/
noncomputable def dpo_loss (policy_chosen_logps policy_rejected_logps
    ref_chosen_logps ref_rejected_logps : Tensor) (beta : ℝ) :
    Option (Tensor × Tensor × Tensor) := do
  let chosen_logratios ← tsub policy_chosen_logps ref_chosen_logps
  let rejected_logratios ← tsub policy_rejected_logps ref_rejected_logps
  let diffs ← tsub chosen_logratios rejected_logratios
  let logits := smul beta diffs
  let losses := tneg (logits.map logsigmoid)
  let chosen_rewards := smul beta (detach chosen_logratios)
  let rejected_rewards := smul beta (detach rejected_logratios)
  return (losses, chosen_rewards, rejected_rewards)

/-! ### Basic lemmas about the tensor operations -/

lemma tsub_of_length_eq (a b : Tensor) (h : a.length = b.length) :
    tsub a b = some (List.zipWith (fun x y => x - y) a b) := by
  simp [tsub, broadcast2, h]

lemma tsub_eq_none (a b : Tensor) (h : ¬ bcompat a.length b.length) :
    tsub a b = none := by
  simp only [bcompat] at h
  push_neg at h
  obtain ⟨h1, h2, h3⟩ := h
  simp [tsub, broadcast2, h1, h2, h3]

lemma tsub_of_bcompat (a b : Tensor) (h : bcompat a.length b.length) :
    ∃ c, tsub a b = some c ∧ c.length = blen a.length b.length := by
  by_cases h1 : a.length = b.length
  · exact ⟨_, tsub_of_length_eq a b h1, by
      simp [blen, h1, List.length_zipWith]⟩
  · by_cases h2 : a.length = 1
    · have h1' : (1:ℕ) ≠ b.length := by
        intro he; exact h1 (h2.trans he)
      refine ⟨b.map (fun y => a.headI - y), ?_, ?_⟩
      · simp [tsub, broadcast2, h1, h2, h1']
      · simp [blen, h1, h2, h1']
    · have h3 : b.length = 1 := by
        rcases h with h | h | h <;> simp_all
      refine ⟨a.map (fun x => x - b.headI), ?_, ?_⟩
      · simp [tsub, broadcast2, h1, h2, h3]
      · simp [blen, h1, h2]

lemma getD_map (f : ℝ → ℝ) (l : Tensor) (i : ℕ) (hi : i < l.length) :
    (l.map f).getD i 0 = f (l.getD i 0) := by
  rw [List.getD_eq_getElem _ _ (by simpa using hi), List.getD_eq_getElem _ _ hi,
    List.getElem_map]

lemma getD_zipWith (f : ℝ → ℝ → ℝ) (a b : Tensor) (i : ℕ)
    (ha : i < a.length) (hb : i < b.length) :
    (List.zipWith f a b).getD i 0 = f (a.getD i 0) (b.getD i 0) := by
  rw [List.getD_eq_getElem _ _ (by rw [List.length_zipWith]; omega),
    List.getD_eq_getElem _ _ ha, List.getD_eq_getElem _ _ hb, List.getElem_zipWith]

/-- Closed form of `dpo_loss` when the four inputs have equal lengths:
no broadcasting happens and every step is a `zipWith`/`map`. -/
lemma dpo_loss_of_length_eq (pc pr rc rr : Tensor) (β : ℝ)
    (h1 : rc.length = pc.length) (h2 : pr.length = pc.length)
    (h3 : rr.length = pc.length) :
    dpo_loss pc pr rc rr β = some
      (tneg ((smul β (List.zipWith (fun x y => x - y)
          (List.zipWith (fun x y => x - y) pc rc)
          (List.zipWith (fun x y => x - y) pr rr))).map logsigmoid),
        smul β (List.zipWith (fun x y => x - y) pc rc),
        smul β (List.zipWith (fun x y => x - y) pr rr)) := by
  have e1 : tsub pc rc = some (List.zipWith (fun x y => x - y) pc rc) :=
    tsub_of_length_eq _ _ h1.symm
  have e2 : tsub pr rr = some (List.zipWith (fun x y => x - y) pr rr) :=
    tsub_of_length_eq _ _ (h2.trans h3.symm)
  have e3 : tsub (List.zipWith (fun x y => x - y) pc rc)
      (List.zipWith (fun x y => x - y) pr rr)
      = some (List.zipWith (fun x y => x - y)
          (List.zipWith (fun x y => x - y) pc rc)
          (List.zipWith (fun x y => x - y) pr rr)) :=
    tsub_of_length_eq _ _ (by rw [List.length_zipWith, List.length_zipWith]; omega)
  simp [dpo_loss, e1, e2, e3, detach]

/-- Master specification: for equal-length inputs, `dpo_loss` succeeds, the
three outputs have the input length, and each output is given pointwise by
the source's arithmetic. -/
lemma dpo_loss_master (pc pr rc rr : Tensor) (β : ℝ)
    (h1 : rc.length = pc.length) (h2 : pr.length = pc.length)
    (h3 : rr.length = pc.length) :
    ∃ l cr rj, dpo_loss pc pr rc rr β = some (l, cr, rj) ∧
      l.length = pc.length ∧ cr.length = pc.length ∧ rj.length = pc.length ∧
      ∀ i, i < pc.length →
        l.getD i 0 = -(logsigmoid (β * ((pc.getD i 0 - rc.getD i 0)
            - (pr.getD i 0 - rr.getD i 0)))) ∧
        cr.getD i 0 = β * (pc.getD i 0 - rc.getD i 0) ∧
        rj.getD i 0 = β * (pr.getD i 0 - rr.getD i 0) := by
  refine ⟨_, _, _, dpo_loss_of_length_eq pc pr rc rr β h1 h2 h3, ?_, ?_, ?_, ?_⟩
  · simp [tneg, smul, List.length_zipWith]; omega
  · simp [smul, List.length_zipWith]; omega
  · simp [smul, List.length_zipWith]; omega
  · intro i hi
    have hcl : i < (List.zipWith (fun x y : ℝ => x - y) pc rc).length := by
      rw [List.length_zipWith]; omega
    have hrl : i < (List.zipWith (fun x y : ℝ => x - y) pr rr).length := by
      rw [List.length_zipWith]; omega
    have hd : i < (List.zipWith (fun x y : ℝ => x - y)
        (List.zipWith (fun x y : ℝ => x - y) pc rc)
        (List.zipWith (fun x y : ℝ => x - y) pr rr)).length := by
      rw [List.length_zipWith]; omega
    refine ⟨?_, ?_, ?_⟩
    · unfold tneg smul
      rw [getD_map _ _ _ (by simpa using hd), getD_map _ _ _ (by simpa using hd),
        getD_map _ _ _ hd, getD_zipWith _ _ _ _ hcl hrl,
        getD_zipWith _ _ _ _ (by omega) (by omega),
        getD_zipWith _ _ _ _ (by omega) (by omega)]
    · unfold smul
      rw [getD_map _ _ _ hcl, getD_zipWith _ _ _ _ (by omega) (by omega)]
    · unfold smul
      rw [getD_map _ _ _ hrl, getD_zipWith _ _ _ _ (by omega) (by omega)]

/-! ### Mathematical facts about the sigmoid and the stable log-sigmoid -/

lemma sigmoid_pos (x : ℝ) : 0 < sigmoid x := by
  unfold sigmoid; positivity

lemma sigmoid_lt_one (x : ℝ) : sigmoid x < 1 := by
  unfold sigmoid
  rw [div_lt_one (by positivity)]
  have := Real.exp_pos (-x)
  linarith

lemma sigmoid_strictMono : StrictMono sigmoid := by
  intro x y hxy
  unfold sigmoid
  have hx : (0:ℝ) < 1 + Real.exp (-x) := by positivity
  have hy : (0:ℝ) < 1 + Real.exp (-y) := by positivity
  rw [div_lt_div_iff hx hy, one_mul, one_mul]
  have : Real.exp (-y) < Real.exp (-x) := Real.exp_lt_exp.mpr (by linarith)
  linarith

/-- The stable softplus form used by `F.logsigmoid` agrees exactly with the
mathematical `log (sigmoid x)`. -/
lemma logsigmoid_eq (x : ℝ) : logsigmoid x = Real.log (sigmoid x) := by
  unfold logsigmoid sigmoid
  rw [one_div, Real.log_inv]
  rcases le_or_lt 0 x with hx | hx
  · rw [abs_of_nonneg hx, max_eq_right (by linarith)]
    ring
  · rw [abs_of_neg hx, max_eq_left (by linarith)]
    have hmul : Real.exp (-x) * Real.exp x = 1 := by
      rw [← Real.exp_add]; simp
    have h1 : (1:ℝ) + Real.exp (-x) = Real.exp (-x) * (1 + Real.exp x) := by
      linear_combination -hmul
    rw [h1, Real.log_mul (Real.exp_ne_zero _) (by positivity), Real.log_exp]
    simp only [neg_neg]

/-- The per-example loss `-logsigmoid x` is strictly positive. -/
lemma neg_logsigmoid_pos (x : ℝ) : 0 < -(logsigmoid x) := by
  unfold logsigmoid
  have h1 : 0 < Real.log (1 + Real.exp (-|x|)) :=
    Real.log_pos (by have := Real.exp_pos (-|x|); linarith)
  have h2 : 0 ≤ max (-x) 0 := le_max_right _ _
  linarith

lemma neg_logsigmoid_zero : -(logsigmoid 0) = Real.log 2 := by
  unfold logsigmoid
  norm_num

/-- `-logsigmoid` is strictly decreasing. -/
lemma neg_logsigmoid_strictAnti : StrictAnti (fun x => -(logsigmoid x)) := by
  intro x y hxy
  simp only [neg_lt_neg_iff]
  rw [logsigmoid_eq, logsigmoid_eq]
  exact Real.log_lt_log (sigmoid_pos x) (sigmoid_strictMono hxy)

/-- Exact value of the loss at logit `-100`. -/
lemma neg_logsigmoid_neg_hundred :
    -(logsigmoid (-100)) = 100 + Real.log (1 + Real.exp (-100)) := by
  unfold logsigmoid
  rw [show |(-100:ℝ)| = 100 by norm_num, show max (-(-100:ℝ)) 0 = 100 by norm_num]
  ring

lemma exp_neg_hundred_lt : Real.exp (-100:ℝ) < (1/2:ℝ)^(100:ℕ) := by
  have h2e : (2:ℝ) < Real.exp 1 := by have := Real.exp_one_gt_d9; linarith
  have hrw : Real.exp (-100:ℝ) = (Real.exp (-1))^(100:ℕ) := by
    rw [← Real.exp_nat_mul]; norm_num
  have hlt : Real.exp (-1:ℝ) < 1/2 := by
    rw [Real.exp_neg]
    rw [show (1/2:ℝ) = 2⁻¹ by norm_num]
    exact inv_lt_inv_of_lt (by norm_num) h2e
  rw [hrw]
  exact pow_lt_pow_left hlt (Real.exp_pos _).le (by norm_num)

lemma log_one_add_exp_neg_hundred_lt :
    Real.log (1 + Real.exp (-100:ℝ)) < (1/2:ℝ)^(100:ℕ) := by
  have h1 : Real.log (1 + Real.exp (-100:ℝ)) ≤ Real.exp (-100:ℝ) := by
    have := Real.log_le_sub_one_of_pos
      (x := 1 + Real.exp (-100:ℝ)) (by positivity)
    linarith
  linarith [exp_neg_hundred_lt]

/-! ### Shift lemmas -/

lemma zipWith_sub_map_left (p r : Tensor) (c : ℝ) :
    List.zipWith (fun x y => x - y) (p.map (fun x => x + c)) r
      = (List.zipWith (fun x y => x - y) p r).map (fun x => x + c) := by
  induction p generalizing r with
  | nil => simp
  | cons a p ih =>
    cases r with
    | nil => simp
    | cons b r => simp only [List.map_cons, List.zipWith_cons_cons, ih]; congr 1; ring

lemma zipWith_sub_map_both (a b : Tensor) (c : ℝ) :
    List.zipWith (fun x y => x - y) (a.map (fun x => x + c)) (b.map (fun x => x + c))
      = List.zipWith (fun x y => x - y) a b := by
  induction a generalizing b with
  | nil => simp
  | cons x a ih =>
    cases b with
    | nil => simp
    | cons y b => simp only [List.map_cons, List.zipWith_cons_cons, ih]; congr 1; ring

lemma smul_map_shift (a : Tensor) (β c : ℝ) :
    smul β (a.map (fun x => x + c)) = (smul β a).map (fun x => x + β * c) := by
  unfold smul
  rw [List.map_map, List.map_map]
  apply List.map_congr_left
  intro x _
  simp only [Function.comp_apply]
  ring

/-! ### Claim theorems -/

/-- C1: for equal-length real inputs and any scalar beta, `dpo_loss`
succeeds and at every index `i` the loss equals
`-log (sigmoid (beta * ((pc[i] - rc[i]) - (pr[i] - rr[i]))))`, the
composition of steps 1-4 of the spec's contract. -/
theorem dpo_loss_per_index_formula (pc pr rc rr : Tensor) (β : ℝ)
    (h1 : rc.length = pc.length) (h2 : pr.length = pc.length)
    (h3 : rr.length = pc.length) :
    ∃ l cr rj, dpo_loss pc pr rc rr β = some (l, cr, rj) ∧
      ∀ i, i < pc.length →
        l.getD i 0 = -Real.log (sigmoid (β * ((pc.getD i 0 - rc.getD i 0)
          - (pr.getD i 0 - rr.getD i 0)))) := by
  obtain ⟨l, cr, rj, he, _, _, _, hpt⟩ := dpo_loss_master pc pr rc rr β h1 h2 h3
  refine ⟨l, cr, rj, he, fun i hi => ?_⟩
  rw [(hpt i hi).1, logsigmoid_eq]

theorem dpo_loss_per_index_formula_witness :
    ∃ l cr rj, dpo_loss [(-1:ℝ), -0.5] [(-2:ℝ), -1.5] [(-1.1:ℝ), -0.6]
        [(-2.1:ℝ), -1.6] 0.1 = some (l, cr, rj) ∧
      ∀ i, i < ([(-1:ℝ), -0.5]).length →
        l.getD i 0 = -Real.log (sigmoid (0.1 *
          ((([(-1:ℝ), -0.5]).getD i 0 - ([(-1.1:ℝ), -0.6]).getD i 0)
            - (([(-2:ℝ), -1.5]).getD i 0 - ([(-2.1:ℝ), -1.6]).getD i 0)))) :=
  dpo_loss_per_index_formula _ _ _ _ _ rfl rfl rfl

/-- C3: for equal-length inputs, `dpo_loss` succeeds and at every index `i`
`chosen_rewards[i] = beta * (pc[i] - rc[i])` and
`rejected_rewards[i] = beta * (pr[i] - rr[i])`. -/
theorem dpo_loss_rewards_formula (pc pr rc rr : Tensor) (β : ℝ)
    (h1 : rc.length = pc.length) (h2 : pr.length = pc.length)
    (h3 : rr.length = pc.length) :
    ∃ l cr rj, dpo_loss pc pr rc rr β = some (l, cr, rj) ∧
      ∀ i, i < pc.length →
        cr.getD i 0 = β * (pc.getD i 0 - rc.getD i 0) ∧
        rj.getD i 0 = β * (pr.getD i 0 - rr.getD i 0) := by
  obtain ⟨l, cr, rj, he, _, _, _, hpt⟩ := dpo_loss_master pc pr rc rr β h1 h2 h3
  exact ⟨l, cr, rj, he, fun i hi => ⟨(hpt i hi).2.1, (hpt i hi).2.2⟩⟩

theorem dpo_loss_rewards_formula_witness :
    ∃ l cr rj, dpo_loss [(-1:ℝ), -0.5] [(-2:ℝ), -1.5] [(-1.1:ℝ), -0.6]
        [(-2.1:ℝ), -1.6] 0.1 = some (l, cr, rj) ∧
      ∀ i, i < ([(-1:ℝ), -0.5]).length →
        cr.getD i 0 = 0.1 * (([(-1:ℝ), -0.5]).getD i 0 - ([(-1.1:ℝ), -0.6]).getD i 0) ∧
        rj.getD i 0 = 0.1 * (([(-2:ℝ), -1.5]).getD i 0 - ([(-2.1:ℝ), -1.6]).getD i 0) :=
  dpo_loss_rewards_formula _ _ _ _ _ rfl rfl rfl

/-- C5: for equal-length inputs and any beta, every computed loss is
strictly positive (hence nonnegative): `losses[i] > 0`. -/
theorem dpo_loss_positive (pc pr rc rr : Tensor) (β : ℝ)
    (h1 : rc.length = pc.length) (h2 : pr.length = pc.length)
    (h3 : rr.length = pc.length) :
    ∃ l cr rj, dpo_loss pc pr rc rr β = some (l, cr, rj) ∧
      ∀ i, i < pc.length → 0 ≤ l.getD i 0 ∧ 0 < l.getD i 0 := by
  obtain ⟨l, cr, rj, he, _, _, _, hpt⟩ := dpo_loss_master pc pr rc rr β h1 h2 h3
  refine ⟨l, cr, rj, he, fun i hi => ?_⟩
  have := neg_logsigmoid_pos (β * ((pc.getD i 0 - rc.getD i 0)
    - (pr.getD i 0 - rr.getD i 0)))
  rw [(hpt i hi).1]
  exact ⟨this.le, this⟩

theorem dpo_loss_positive_witness :
    ∃ l cr rj, dpo_loss [(-1:ℝ), -0.5] [(-2:ℝ), -1.5] [(-1.1:ℝ), -0.6]
        [(-2.1:ℝ), -1.6] 0.1 = some (l, cr, rj) ∧
      ∀ i, i < ([(-1:ℝ), -0.5]).length → 0 ≤ l.getD i 0 ∧ 0 < l.getD i 0 :=
  dpo_loss_positive _ _ _ _ _ rfl rfl rfl

/-- C6: for equal-length inputs with `chosen_logratio[i] = rejected_logratio[i]`
at every index (logit 0 everywhere), every loss equals `log 2`. -/
theorem dpo_loss_log_two_of_equal_logratios (pc pr rc rr : Tensor) (β : ℝ)
    (h1 : rc.length = pc.length) (h2 : pr.length = pc.length)
    (h3 : rr.length = pc.length)
    (hz : ∀ i, i < pc.length →
      pc.getD i 0 - rc.getD i 0 = pr.getD i 0 - rr.getD i 0) :
    ∃ l cr rj, dpo_loss pc pr rc rr β = some (l, cr, rj) ∧
      ∀ i, i < pc.length → l.getD i 0 = Real.log 2 := by
  obtain ⟨l, cr, rj, he, _, _, _, hpt⟩ := dpo_loss_master pc pr rc rr β h1 h2 h3
  refine ⟨l, cr, rj, he, fun i hi => ?_⟩
  rw [(hpt i hi).1, hz i hi, sub_self, mul_zero, neg_logsigmoid_zero]

theorem dpo_loss_log_two_witness :
    (∀ i, i < ([(-1:ℝ), -0.5]).length →
      ([(-1:ℝ), -0.5]).getD i 0 - ([(-1.1:ℝ), -0.6]).getD i 0
        = ([(-2:ℝ), -1.5]).getD i 0 - ([(-2.1:ℝ), -1.6]).getD i 0) ∧
    (∃ l cr rj, dpo_loss [(-1:ℝ), -0.5] [(-2:ℝ), -1.5] [(-1.1:ℝ), -0.6]
        [(-2.1:ℝ), -1.6] 0.1 = some (l, cr, rj) ∧
      ∀ i, i < ([(-1:ℝ), -0.5]).length → l.getD i 0 = Real.log 2) := by
  have hz : ∀ i, i < ([(-1:ℝ), -0.5]).length →
      ([(-1:ℝ), -0.5]).getD i 0 - ([(-1.1:ℝ), -0.6]).getD i 0
        = ([(-2:ℝ), -1.5]).getD i 0 - ([(-2.1:ℝ), -1.6]).getD i 0 := by
    intro i hi
    have hi2 : i < 2 := by simpa using hi
    interval_cases i <;> norm_num [List.getD]
  exact ⟨hz, dpo_loss_log_two_of_equal_logratios _ _ _ _ _ rfl rfl rfl hz⟩

/-- C8: for any four input sequences of equal length N (including N = 0),
`dpo_loss` returns exactly three sequences, each of length N. -/
theorem dpo_loss_output_lengths (pc pr rc rr : Tensor) (β : ℝ)
    (h1 : rc.length = pc.length) (h2 : pr.length = pc.length)
    (h3 : rr.length = pc.length) :
    ∃ l cr rj, dpo_loss pc pr rc rr β = some (l, cr, rj) ∧
      l.length = pc.length ∧ cr.length = pc.length ∧ rj.length = pc.length := by
  obtain ⟨l, cr, rj, he, hl, hcr, hrj, _⟩ := dpo_loss_master pc pr rc rr β h1 h2 h3
  exact ⟨l, cr, rj, he, hl, hcr, hrj⟩

theorem dpo_loss_output_lengths_witness :
    ∃ l cr rj, dpo_loss ([] : Tensor) [] [] [] 0.1 = some (l, cr, rj) ∧
      l.length = ([] : Tensor).length ∧ cr.length = ([] : Tensor).length ∧
      rj.length = ([] : Tensor).length :=
  dpo_loss_output_lengths _ _ _ _ _ rfl rfl rfl

/-- C2: whenever the logit at index `i` is `-100`, the computed loss at `i`
equals the exact value `-log (sigmoid (-100))` and lies strictly between
`100` and `100 + 2⁻¹⁰⁰`: finite and ≈ 100, as guaranteed by the stable
log-sigmoid evaluation (whose `exp` argument is never positive). -/
theorem dpo_loss_stable_at_neg_hundred (pc pr rc rr : Tensor) (β : ℝ)
    (h1 : rc.length = pc.length) (h2 : pr.length = pc.length)
    (h3 : rr.length = pc.length) (i : ℕ) (hi : i < pc.length)
    (hlogit : β * ((pc.getD i 0 - rc.getD i 0)
      - (pr.getD i 0 - rr.getD i 0)) = -100) :
    ∃ l cr rj, dpo_loss pc pr rc rr β = some (l, cr, rj) ∧
      l.getD i 0 = -Real.log (sigmoid (-100)) ∧
      100 < l.getD i 0 ∧ l.getD i 0 < 100 + (1/2:ℝ)^(100:ℕ) := by
  obtain ⟨l, cr, rj, he, _, _, _, hpt⟩ := dpo_loss_master pc pr rc rr β h1 h2 h3
  have hv : l.getD i 0 = -(logsigmoid (-100)) := by rw [(hpt i hi).1, hlogit]
  refine ⟨l, cr, rj, he, ?_, ?_, ?_⟩
  · rw [hv, logsigmoid_eq]
  · rw [hv, neg_logsigmoid_neg_hundred]
    have hp : 0 < Real.log (1 + Real.exp (-100:ℝ)) :=
      Real.log_pos (by have := Real.exp_pos (-100:ℝ); linarith)
    linarith
  · rw [hv, neg_logsigmoid_neg_hundred]
    linarith [log_one_add_exp_neg_hundred_lt]

theorem dpo_loss_stable_at_neg_hundred_witness :
    ∃ l cr rj, dpo_loss [(-100:ℝ)] [(0:ℝ)] [(0:ℝ)] [(0:ℝ)] 1 = some (l, cr, rj) ∧
      l.getD 0 0 = -Real.log (sigmoid (-100)) ∧
      100 < l.getD 0 0 ∧ l.getD 0 0 < 100 + (1/2:ℝ)^(100:ℕ) :=
  dpo_loss_stable_at_neg_hundred [(-100:ℝ)] [(0:ℝ)] [(0:ℝ)] [(0:ℝ)] 1
    rfl rfl rfl 0 (by norm_num) (by norm_num [List.getD])

/-- C4 (amended): whenever any of the three elementwise subtractions —
chosen logratios, rejected logratios, or their difference — meets two
operand lengths that are not broadcast-compatible (different and neither
equal to 1), `dpo_loss` fails with a shape error; a mismatch in which one
operand has length 1 is instead silently broadcast. -/
theorem dpo_loss_shape_error_of_mismatch (pc pr rc rr : Tensor) (β : ℝ)
    (h : ¬ bcompat pc.length rc.length ∨ ¬ bcompat pr.length rr.length ∨
      (bcompat pc.length rc.length ∧ bcompat pr.length rr.length ∧
        ¬ bcompat (blen pc.length rc.length) (blen pr.length rr.length))) :
    dpo_loss pc pr rc rr β = none := by
  rcases h with h | h | ⟨hc, hr, hd⟩
  · simp [dpo_loss, tsub_eq_none pc rc h]
  · cases hcr : tsub pc rc with
    | none => simp [dpo_loss, hcr]
    | some c => simp [dpo_loss, hcr, tsub_eq_none pr rr h]
  · obtain ⟨c, hcr, hclen⟩ := tsub_of_bcompat pc rc hc
    obtain ⟨r, hrr, hrlen⟩ := tsub_of_bcompat pr rr hr
    have hdn : tsub c r = none := by
      apply tsub_eq_none
      rw [hclen, hrlen]
      exact hd
    simp [dpo_loss, hcr, hrr, hdn]

theorem dpo_loss_shape_error_of_mismatch_witness :
    dpo_loss [(0:ℝ), 0, 0] [(0:ℝ), 0] [(0:ℝ), 0, 0] [(0:ℝ), 0, 0, 0, 0] 0.1
      = none :=
  dpo_loss_shape_error_of_mismatch _ _ _ _ _
    (Or.inr (Or.inl (by norm_num [bcompat])))

/-- C4 counterexample: with input lengths (1, 3, 3, 3) — not all equal —
`dpo_loss` does not fail: the length-1 tensor is broadcast and a full
length-3 result is returned. -/
theorem dpo_loss_broadcasts_length_one :
    dpo_loss [(0:ℝ)] [(0:ℝ), 0, 0] [(0:ℝ), 0, 0] [(0:ℝ), 0, 0] 1
      = some ([Real.log 2, Real.log 2, Real.log 2], [0, 0, 0], [0, 0, 0])
    ∧ ([(0:ℝ)]).length ≠ ([(0:ℝ), 0, 0]).length := by
  refine ⟨?_, by norm_num⟩
  have hz : logsigmoid 0 = -Real.log 2 := by
    have := neg_logsigmoid_zero; linarith
  simp [dpo_loss, tsub, broadcast2, smul, tneg, detach, hz]

/-- C7: the loss at index `i` is strictly decreasing in the logit: between
any two calls, if the first's logit at `i` is strictly smaller than the
second's, then the second call's loss at `i` is strictly smaller. -/
theorem dpo_loss_strict_decreasing_in_logit
    (pc pr rc rr qc qr sc sr : Tensor) (β γ : ℝ)
    (h1 : rc.length = pc.length) (h2 : pr.length = pc.length)
    (h3 : rr.length = pc.length)
    (g1 : sc.length = qc.length) (g2 : qr.length = qc.length)
    (g3 : sr.length = qc.length)
    (i : ℕ) (hi : i < pc.length) (hj : i < qc.length)
    (hlt : β * ((pc.getD i 0 - rc.getD i 0) - (pr.getD i 0 - rr.getD i 0))
      < γ * ((qc.getD i 0 - sc.getD i 0) - (qr.getD i 0 - sr.getD i 0))) :
    ∃ l cr rj l2 cr2 rj2,
      dpo_loss pc pr rc rr β = some (l, cr, rj) ∧
      dpo_loss qc qr sc sr γ = some (l2, cr2, rj2) ∧
      l2.getD i 0 < l.getD i 0 := by
  obtain ⟨l, cr, rj, he, _, _, _, hpt⟩ := dpo_loss_master pc pr rc rr β h1 h2 h3
  obtain ⟨l2, cr2, rj2, he2, _, _, _, hpt2⟩ := dpo_loss_master qc qr sc sr γ g1 g2 g3
  refine ⟨l, cr, rj, l2, cr2, rj2, he, he2, ?_⟩
  rw [(hpt i hi).1, (hpt2 i hj).1]
  exact neg_logsigmoid_strictAnti hlt

theorem dpo_loss_strict_decreasing_in_logit_witness :
    ∃ l cr rj l2 cr2 rj2,
      dpo_loss [(0:ℝ)] [(0:ℝ)] [(0:ℝ)] [(0:ℝ)] 1 = some (l, cr, rj) ∧
      dpo_loss [(1:ℝ)] [(0:ℝ)] [(0:ℝ)] [(0:ℝ)] 1 = some (l2, cr2, rj2) ∧
      l2.getD 0 0 < l.getD 0 0 :=
  dpo_loss_strict_decreasing_in_logit [(0:ℝ)] [(0:ℝ)] [(0:ℝ)] [(0:ℝ)]
    [(1:ℝ)] [(0:ℝ)] [(0:ℝ)] [(0:ℝ)] 1 1 rfl rfl rfl rfl rfl rfl 0
    (by norm_num) (by norm_num) (by norm_num [List.getD])

/-- C9: `dpo_loss` is deterministic — equal inputs (the four sequences and
beta) give equal outputs; in this embedding it is a pure function with no
effect outside its return value. -/
theorem dpo_loss_deterministic (pc pr rc rr qc qr sc sr : Tensor) (β γ : ℝ)
    (h1 : pc = qc) (h2 : pr = qr) (h3 : rc = sc) (h4 : rr = sr) (h5 : β = γ) :
    dpo_loss pc pr rc rr β = dpo_loss qc qr sc sr γ := by
  rw [h1, h2, h3, h4, h5]

theorem dpo_loss_deterministic_witness :
    dpo_loss [(-1:ℝ), -0.5] [(-2:ℝ), -1.5] [(-1.1:ℝ), -0.6] [(-2.1:ℝ), -1.6] 0.1
      = dpo_loss [(-1:ℝ), -0.5] [(-2:ℝ), -1.5] [(-1.1:ℝ), -0.6] [(-2.1:ℝ), -1.6] 0.1 :=
  dpo_loss_deterministic _ _ _ _ _ _ _ _ _ _ rfl rfl rfl rfl rfl

/-- C10: adding a constant `c` to every element of both policy inputs
(leaving the reference inputs unchanged) leaves every loss unchanged and
adds exactly `beta * c` to every chosen and rejected reward. -/
theorem dpo_loss_shift_invariance (pc pr rc rr : Tensor) (β c : ℝ)
    (h1 : rc.length = pc.length) (h2 : pr.length = pc.length)
    (h3 : rr.length = pc.length) :
    ∃ l cr rj, dpo_loss pc pr rc rr β = some (l, cr, rj) ∧
      dpo_loss (pc.map (fun x => x + c)) (pr.map (fun x => x + c)) rc rr β
        = some (l, cr.map (fun x => x + β * c), rj.map (fun x => x + β * c)) := by
  refine ⟨_, _, _, dpo_loss_of_length_eq pc pr rc rr β h1 h2 h3, ?_⟩
  rw [dpo_loss_of_length_eq _ _ _ _ β (by simpa using h1) (by simpa using h2)
    (by simpa using h3)]
  rw [zipWith_sub_map_left pc rc c, zipWith_sub_map_left pr rr c,
    zipWith_sub_map_both, smul_map_shift, smul_map_shift]

theorem dpo_loss_shift_invariance_witness :
    ∃ l cr rj, dpo_loss [(-1:ℝ), -0.5] [(-2:ℝ), -1.5] [(-1.1:ℝ), -0.6]
        [(-2.1:ℝ), -1.6] 0.1 = some (l, cr, rj) ∧
      dpo_loss (([(-1:ℝ), -0.5]).map (fun x => x + 1))
          (([(-2:ℝ), -1.5]).map (fun x => x + 1)) [(-1.1:ℝ), -0.6]
          [(-2.1:ℝ), -1.6] 0.1
        = some (l, cr.map (fun x => x + 0.1 * 1), rj.map (fun x => x + 0.1 * 1)) :=
  dpo_loss_shift_invariance _ _ _ _ _ _ rfl rfl rfl

end DPO
